import Mathlib

/-!
Shallow embedding of the Roadmap-API Go repository
(packages `internal/hive` and `internal/cubecraft`), together with
theorems settling the specification claims about it.

Modelling conventions:
* Go `time.Time` instants and `time.Duration` values are modelled as `Int`
  (nanoseconds, as in Go's `time` package).
* Go maps (`map[string]T`, `sync.Map`) are modelled as association lists
  with first-match lookup, whole-list erase and replace-or-append update;
  this matches Go map semantics (at most one binding per key).
* Fallible Go functions returning `(T, error)` are modelled as
  `Except String T`; the network is passed in as an explicit function or
  `Except` value so that theorems can quantify over upstream behaviour.
* The concurrent worker pool of `Client.FetchAllPages` is modelled by its
  mutex linearisation: every job (page request) is executed exactly once
  and its critical section (error recording / result placement) is atomic,
  so a run of the pool is a fold of the critical-section step over the job
  list in an arbitrary completion order.  Theorems quantify over that
  order, restricted to permutations of the job queue the code fills.
-/

set_option maxHeartbeats 1000000

namespace Roadmap

/-- Association-list lookup, modelling Go map read `m[k]`. -/
def alookup (k : String) : List (String × α) → Option α
  | [] => none
  | p :: rest => if p.1 = k then some p.2 else alookup k rest

/-- Association-list update, modelling Go map write `m[k] = v`. -/
def aset (k : String) (v : α) : List (String × α) → List (String × α)
  | [] => [(k, v)]
  | p :: rest => if p.1 = k then (k, v) :: rest else p :: aset k v rest

/-- Association-list removal, modelling Go map `delete(m, k)` /
`sync.Map.Delete`. -/
def aerase (k : String) (m : List (String × α)) : List (String × α) :=
  m.filter (fun p => !(p.1 = k : Bool))

/-- Model of Go `strings.ToLower` restricted to the ASCII data it is
applied to here (column names, sort specifications).  Written over
`String.data` so that concrete instances reduce in the kernel. -/
def toLower (s : String) : String := String.mk (s.data.map Char.toLower)

/-- The whitespace set of Go `strings.TrimSpace` over the Latin-1 range
(Go additionally trims the rarer Unicode White_Space code points, which
no claim touches). -/
def isGoSpace (c : Char) : Bool :=
  c = ' ' ∨ c = '\t' ∨ c = '\n' ∨ c = '\x0B' ∨ c = '\x0C' ∨ c = '\r'
    ∨ c = '\u0085' ∨ c = '\u00A0'

/-- Trim `isGoSpace` characters from both ends of a character list. -/
def trimChars (l : List Char) : List Char :=
  ((l.dropWhile isGoSpace).reverse.dropWhile isGoSpace).reverse

/-- Model of Go `strings.TrimSpace`. -/
def trim (s : String) : String := String.mk (trimChars s.data)

end Roadmap

namespace Hive

open Roadmap

/-- `internal/hive/models.go`, `RoadmapItem`: the canonical (normalized)
roadmap entry. -/
structure RoadmapItem where
  id : String := ""
  slug : String := ""
  title : String := ""
  status : String := ""
  category : String := ""
  upvotes : Int := 0
  date : String := ""
  lastModified : String := ""
  pinned : Bool := false
  eta : String := ""
  contentHTML : String := ""
  contentText : String := ""
  page : Int := 0
deriving DecidableEq, Inhabited

/-- `internal/hive/models.go`, `hiveResponse`: one decoded upstream page.
`results` keeps the already-mapped items (the raw submissions carry no
information the claims touch beyond what `RoadmapItem` holds). -/
structure HiveResponse where
  results : List RoadmapItem := []
  page : Int := 0
  limit : Int := 0
  totalPages : Nat := 0
  totalResults : Int := 0
deriving DecidableEq, Inhabited

/-- One worker-loop iteration of `Client.FetchAllPages`
(`internal/hive/client.go` lines 177-191): fetch page `j`, then the
mutex-protected critical section records the first error or places the
response at index `j-1`. -/
def jobStep (fetch : Nat → Except String HiveResponse)
    (st : List HiveResponse × Option String) (j : Nat) :
    List HiveResponse × Option String :=
  match fetch j, st.2 with
  | .error e, none => (st.1, some e)
  | .error _, some e0 => (st.1, some e0)
  | .ok hr, fe => (st.1.set (j - 1) hr, fe)

/-- The job queue `Client.FetchAllPages` fills: pages `2..total`
(`for p := 2; p <= total; p++ { jobs <- job{page: p} }`). -/
def hiveJobs (total : Nat) : List Nat := List.range' 2 (total - 1)

/-- `Client.FetchAllPages` (`internal/hive/client.go` lines 159-212).
`fetch p` abstracts `FetchPage` with the query's page set to `p`
(deterministic per page within one call).  `basePage` is the page of the
base query; `buildURL` normalizes `page <= 0` to `1`.  `order` is the
completion order of the worker pool (see module docstring); the returned
second component is the list of pages actually requested, in request
order. -/
def fetchAllPages (fetch : Nat → Except String HiveResponse) (basePage : Nat)
    (order : List Nat) : Except String (List HiveResponse) × List Nat :=
  let ep := if basePage = 0 then 1 else basePage
  match fetch ep with
  | .error e => (.error e, [ep])
  | .ok first =>
    let total := first.totalPages
    if total = 0 then (.ok [first], [ep])
    else
      let init : List HiveResponse × Option String :=
        ((List.replicate total default).set 0 first, none)
      let st := order.foldl (jobStep fetch) init
      match st.2 with
      | some e => (.error e, ep :: order)
      | none => (.ok st.1, ep :: order)

/-- The error the mutex records: the error of the first failing job in
completion order (`if err != nil && firstErr == nil { firstErr = err }`). -/
def firstJobError (fetch : Nat → Except String HiveResponse)
    (order : List Nat) : Option String :=
  order.findSome? (fun j => match fetch j with
    | .error e => some e
    | .ok _ => none)

/-- The payload of a successful fetch (`default` when it failed; only used
at pages whose fetch succeeded). -/
def okValue (fetch : Nat → Except String HiveResponse) (p : Nat) :
    HiveResponse :=
  match fetch p with
  | .ok hr => hr
  | .error _ => default

/-- The fully assembled result of an all-success multi-page fetch: the
first page followed by the payloads of pages `2..totalPages`, in page
order. -/
def expectedPages (fetch : Nat → Except String HiveResponse)
    (first : HiveResponse) : List HiveResponse :=
  first :: (hiveJobs first.totalPages).map (okValue fetch)

/-- Concrete sample upstream page (totalPages declared as 3). -/
def exResp (p : Nat) : HiveResponse :=
  { page := p, totalPages := 3, totalResults := 5 }

/-- Concrete all-success upstream: pages 1..3 succeed. -/
def exFetchOK : Nat → Except String HiveResponse := fun p =>
  if p ≤ 3 then .ok (exResp p) else .error "out of range"

/-- Concrete upstream where only page 2 fails (pages 1 and 3 succeed). -/
def exFetchFail : Nat → Except String HiveResponse := fun p =>
  if p = 2 then .error "network error"
  else if p ≤ 3 then .ok (exResp p) else .error "out of range"

/-! ### `stripHTML` (`internal/hive/client.go` 224-242)

The Go function iterates the string's runes, so it is embedded over
`List Char` (a string's rune sequence). -/

/-- The tag-stripping automaton of `stripHTML`'s first loop: `<` enters
the in-tag state, `>` leaves it, and a character is written only outside
a tag; the brackets themselves are never written. -/
def removeTagsAux (inTag : Bool) : List Char → List Char
  | [] => []
  | c :: rest =>
    if c = '<' then removeTagsAux true rest
    else if c = '>' then removeTagsAux false rest
    else if inTag then removeTagsAux true rest
    else c :: removeTagsAux false rest

/-- The automaton state after consuming `l` from state `inTag`. -/
def tagState (inTag : Bool) : List Char → Bool
  | [] => inTag
  | c :: rest =>
    if c = '<' then tagState true rest
    else if c = '>' then tagState false rest
    else tagState inTag rest

/-- The first pass of `stripHTML` (initial state: outside any tag). -/
def removeTags (l : List Char) : List Char := removeTagsAux false l

/-- The replacement table of the `strings.NewReplacer` call, in source
order; each pattern is a named entity and its single-character
decoding (`Char.ofNat 39` is the apostrophe). -/
def entityList : List (List Char × Char) :=
  [(['&', 'n', 'b', 's', 'p', ';'], ' '),
   (['&', 'a', 'm', 'p', ';'], '&'),
   (['&', 'l', 't', ';'], '<'),
   (['&', 'g', 't', ';'], '>'),
   (['&', '#', '3', '9', ';'], Char.ofNat 39),
   (['&', 'q', 'u', 'o', 't', ';'], '"')]

/-- One left-to-right pass of the `strings.Replacer`: at each position
the first matching pattern is replaced and skipped without rescanning
the replacement; otherwise the character is copied unchanged.
(`rest.drop (p.1.length - 1)` is `(c :: rest).drop p.1.length`; every
pattern is non-empty.) -/
def decodeEntities : List Char → List Char
  | [] => []
  | c :: rest =>
    match entityList.findSome?
        (fun p => if p.1.isPrefixOf (c :: rest) then some p else none) with
    | some p => p.2 :: decodeEntities (rest.drop (p.1.length - 1))
    | none => c :: decodeEntities rest
termination_by l => l.length
decreasing_by
  · simp only [List.length_drop, List.length_cons]
    omega
  · simp

/-- `stripHTML`: strip markup tags, decode the six named entities, trim
surrounding whitespace. -/
def stripHTML (l : List Char) : List Char :=
  Roadmap.trimChars (decodeEntities (removeTags l))

/-! ### Change tracker

`service.recordChanges` / `service.Updates` (unnamed hive service file,
lines 68-109); `service.recordStatusChanges` / `service.Updates` in
`internal/cubecraft/service.go` (lines 189-230) implement the identical
logic over cubecraft items, so one embedding covers both. -/

/-- Go `24 * time.Hour` in nanoseconds. -/
def retentionWindow : Int := 24 * 60 * 60 * 1000000000

/-- `changeEntry`: one recorded status transition (detection time,
previous status, new status, item snapshot). -/
structure ChangeEntry where
  At : Int
  From : String
  To : String
  Item : RoadmapItem
deriving DecidableEq, Inhabited

/-- The tracker's mutable state: `prevStatus` index and `updates` log. -/
structure TrackerState where
  prevStatus : List (String × String)
  updates : List ChangeEntry
deriving DecidableEq, Inhabited

/-- The pruning pass both `recordChanges` and `Updates` run:
keep `u` iff `u.At.After(now.Add(-24h))`, i.e. `now - 24h < u.At`. -/
def pruneUpdates (now : Int) (us : List ChangeEntry) : List ChangeEntry :=
  us.filter (fun u => now - retentionWindow < u.At)

/-- The per-item body of `recordChanges`' loop: first observation stores
the status silently; a changed status appends a `ChangeEntry` and updates
the index; an unchanged status does nothing. -/
def recordStep (now : Int) (s : TrackerState) (it : RoadmapItem) :
    TrackerState :=
  match Roadmap.alookup it.id s.prevStatus with
  | none => { s with prevStatus := Roadmap.aset it.id it.status s.prevStatus }
  | some prev =>
    if prev ≠ it.status then
      { prevStatus := Roadmap.aset it.id it.status s.prevStatus,
        updates := s.updates ++ [⟨now, prev, it.status, it⟩] }
    else s

/-- `service.recordChanges`: prune the log to the retention window, then
process each item in order. -/
def recordChanges (now : Int) (items : List RoadmapItem) (s : TrackerState) :
    TrackerState :=
  items.foldl (recordStep now) { s with updates := pruneUpdates now s.updates }

/-- `service.Updates`: return the in-window entries (the stored state is
not modified; the returned slice is the filtered copy). -/
def Updates (now : Int) (s : TrackerState) : List ChangeEntry :=
  pruneUpdates now s.updates

/-- Tracker states reachable from the empty initial state by `record`
calls.  The side condition `htime` says the call's `time.Now()` is not
earlier than any recorded detection time, which Go's monotonic clock
guarantees across successive calls on one service instance. -/
inductive Reachable : TrackerState → Prop
  | init : Reachable ⟨[], []⟩
  | record (s : TrackerState) (now : Int) (items : List RoadmapItem)
      (h : Reachable s) (htime : ∀ e ∈ s.updates, e.At ≤ now) :
      Reachable (recordChanges now items s)

/-- Concrete item "X" observed as In Progress. -/
def exItemIP : RoadmapItem := { id := "X", title := "Example", status := "In Progress" }

/-- Concrete item "X" observed as Released. -/
def exItemRel : RoadmapItem := { id := "X", title := "Example", status := "Released" }

/-- Empty tracker state. -/
def exState0 : TrackerState := ⟨[], []⟩

/-- Tracker state after first observing "X" as In Progress at time 100. -/
def exState1 : TrackerState := recordChanges 100 [exItemIP] exState0

/-- Tracker state after then observing "X" as Released at time 200. -/
def exState2 : TrackerState := recordChanges 200 [exItemRel] exState1

/-- An entry 1 unit inside the retention boundary for `now = 2·W`. -/
def exEntryKept : ChangeEntry :=
  { At := retentionWindow + 1, From := "A", To := "B", Item := exItemIP }

/-- An entry 1 unit beyond the retention boundary for `now = 2·W`. -/
def exEntryOld : ChangeEntry :=
  { At := retentionWindow - 1, From := "B", To := "C", Item := exItemIP }

/-- A tracker state holding one in-window and one out-of-window entry. -/
def exTrackerState : TrackerState :=
  ⟨[("X", "Released")], [exEntryOld, exEntryKept]⟩

/-! ### Response cache (`Client.get`, `internal/hive/client.go` 106-141) -/

/-- `cacheEntry`: raw body plus expiry instant. -/
structure CacheEntry where
  body : String
  expiresAt : Int
deriving DecidableEq, Inhabited

/-- The network-and-store tail of `Client.get` (lines 116-140): perform
the request; on success store the body under the URL when caching is on
and not bypassed.  (Go stamps the expiry with a second `time.Now()` taken
after the request; both reads are modelled by the one instant `now`.)
The third component records that the network was used. -/
def getNetwork (cacheTTL now : Int) (cache : List (String × CacheEntry))
    (fullURL : String) (bypassCache : Bool) (network : Except String String) :
    Except String String × List (String × CacheEntry) × Bool :=
  match network with
  | .error e => (.error e, cache, true)
  | .ok body =>
    if 0 < cacheTTL ∧ bypassCache = false then
      (.ok body, Roadmap.aset fullURL ⟨body, now + cacheTTL⟩ cache, true)
    else
      (.ok body, cache, true)

/-- `Client.get`: serve from cache iff not bypassed, TTL positive, the key
is stored and `now` is strictly before its expiry; an expired entry is
deleted before falling through to the network. -/
def clientGet (cacheTTL now : Int) (cache : List (String × CacheEntry))
    (fullURL : String) (bypassCache : Bool) (network : Except String String) :
    Except String String × List (String × CacheEntry) × Bool :=
  if bypassCache = false ∧ 0 < cacheTTL then
    match Roadmap.alookup fullURL cache with
    | some entry =>
      if now < entry.expiresAt then (.ok entry.body, cache, false)
      else getNetwork cacheTTL now (Roadmap.aerase fullURL cache) fullURL
        bypassCache network
    | none => getNetwork cacheTTL now cache fullURL bypassCache network
  else getNetwork cacheTTL now cache fullURL bypassCache network

/-- Concrete cache entry expiring at instant 1000. -/
def exCacheEntry : CacheEntry := { body := "cached-body", expiresAt := 1000 }

/-- Concrete one-entry cache under key "u". -/
def exCache : List (String × CacheEntry) := [("u", exCacheEntry)]

/-! ### Query resolution (`internal/hive/client.go` 66-104, 143-157) -/

/-- `columnToStatusID`: the recognized logical columns. -/
def columnToStatusID : List (String × String) :=
  [("in-progress", "673d43b2b479f2dff6f8b96e"),
   ("coming-next", "673d43a8b479f2dff6f8b74b"),
   ("released", "67489361029fa6e5e4579b21")]

/-- `Query`: the caller's request. -/
structure Query where
  column : String := ""
  page : Int := 0
  sortBy : String := ""
  inReview : Bool := false
  includePinned : Bool := false
  raw : Bool := false
  bypassCache : Bool := false
deriving DecidableEq, Inhabited

/-- `Query.statusID`: resolve the logical column, lower-cased, against
`columnToStatusID`. -/
def statusID (q : Query) : Except String String :=
  match Roadmap.alookup (Roadmap.toLower q.column) columnToStatusID with
  | some id => .ok id
  | none => .error ("unknown column: " ++ q.column)

/-- The parameter set `Client.buildURL` encodes into the request URL
(the URL string itself carries exactly these values). -/
structure URLParts where
  statusID : String
  sortBy : String
  inReview : Bool
  includePinned : Bool
  page : Int
deriving DecidableEq, Inhabited

/-- `Client.buildURL` (lines 84-104): normalize page and sort, then
resolve the column; an unknown column aborts before a URL exists. -/
def buildURL (q : Query) : Except String URLParts :=
  let page := if q.page ≤ 0 then 1 else q.page
  let sortBy := if q.sortBy = "" then "upvotes:desc" else q.sortBy
  match statusID q with
  | .error e => .error e
  | .ok id => .ok ⟨id, sortBy, q.inReview, q.includePinned, page⟩

/-- `Client.FetchPage` (lines 143-157) with the cache/network/decoding
stack abstracted as `net`; the second component lists the upstream
requests issued. -/
def fetchPage (net : URLParts → Except String HiveResponse) (q : Query) :
    Except String HiveResponse × List URLParts :=
  match buildURL q with
  | .error e => (.error e, [])
  | .ok u =>
    match net u with
    | .error e => (.error e, [u])
    | .ok hr => (.ok hr, [u])

/-- `internal/hive/models.go`, `PageMeta`. -/
structure PageMeta where
  page : Int := 0
  limit : Int := 0
  totalPages : Int := 0
  totalResults : Int := 0
deriving DecidableEq, Inhabited

end Hive

namespace Cubecraft

/-! ### The cubecraft (notion-backed) provider

Embedding of `internal/cubecraft/service.go` and the unnamed client file
(`Client.Fetch`, `keyMap`, `renameMap`). -/

/-- `models.go` `Card`: one raw collection row.  `properties` is the
already-flattened string map `parseProps` produces; timestamps are the
notion millisecond values. -/
structure Card where
  id : String := ""
  title : String := ""
  url : String := ""
  properties : List (String × String) := []
  createdAt : Int := 0
  updatedAt : Int := 0
  releasedAt : String := ""
deriving DecidableEq, Inhabited

/-- The client's single-slot `cacheEntry` (decoded cards + expiry). -/
structure CacheEntry where
  data : List Card
  expiresAt : Int
deriving DecidableEq, Inhabited

/-- The network tail of `Client.Fetch` (lines 101-208): on success the
cards are stored (overwriting the slot) when the TTL is positive.  The
third component records that the upstream request was issued. -/
def fetchNetwork (cacheTTL now : Int) (cache : Option CacheEntry)
    (network : Except String (List Card)) :
    Except String (List Card) × Option CacheEntry × Bool :=
  match network with
  | .error e => (.error e, cache, true)
  | .ok cards =>
    if 0 < cacheTTL then (.ok cards, some ⟨cards, now + cacheTTL⟩, true)
    else (.ok cards, cache, true)

/-- `Client.Fetch` (lines 90-208): serve the cached cards iff the TTL is
positive, the slot is filled and `now` is strictly before its expiry;
otherwise hit the network. -/
def Fetch (cacheTTL now : Int) (cache : Option CacheEntry)
    (network : Except String (List Card)) :
    Except String (List Card) × Option CacheEntry × Bool :=
  if 0 < cacheTTL then
    match cache with
    | some entry =>
      if now < entry.expiresAt then (.ok entry.data, cache, false)
      else fetchNetwork cacheTTL now cache network
    | none => fetchNetwork cacheTTL now cache network
  else fetchNetwork cacheTTL now cache network

/-- Client file `keyMap`: notion property id → friendly name. -/
def keyMap : List (String × String) :=
  [("3E6J", "status"), ("@@W>", "network"), ("K:rY", "category"),
   ("\\wxR", "projectLead"), ("^NHI", "releasePost"),
   ("created_time", "createdAt"), ("last_edited_time", "lastUpdated"),
   ("?igY", "releasedAt")]

/-- Client file `renameMap`. -/
def renameMap (m : List (String × String)) : List (String × String) :=
  m.map (fun p =>
    match Roadmap.alookup p.1 keyMap with
    | some nk => (nk, p.2)
    | none => p)

/-- `service.go` `columnToStatus`: logical column → provider statuses. -/
def columnToStatus : List (String × List String) :=
  [("in-progress", ["In Progress"]), ("coming-next", ["Testing"]),
   ("released", ["Released"])]

/-- `service.go` `contains`: an empty target list matches everything. -/
def containsStatus (arr : List String) (v : String) : Bool :=
  arr.isEmpty || arr.contains v

/-- `service.go` `mapStatusLabel`. -/
def mapStatusLabel (notionStatus : String) : String :=
  if notionStatus = "In Progress" then "In Progress"
  else if notionStatus = "Released" then "Released"
  else if notionStatus = "Testing" then "Coming Next..."
  else if notionStatus = "Information" then "Information"
  else notionStatus

/-- The eight sort specifications `normalizeSort` recognizes. -/
def sortChoices : List String :=
  ["releasedat:asc", "releasedat:desc", "lastupdated:asc", "lastupdated:desc",
   "createdat:asc", "createdat:desc", "title:asc", "title:desc"]

/-- `service.go` `normalizeSort`. -/
def normalizeSort (input column : String) : String :=
  let t := Roadmap.toLower (Roadmap.trim input)
  if sortChoices.contains t then t
  else if Roadmap.toLower column = "released" then "releasedat:desc"
  else if Roadmap.toLower column = "in-progress"
      ∨ Roadmap.toLower column = "coming-next" then
    "lastupdated:desc"
  else "title:asc"

/-- Model of `time.Parse("2006-01-02", s)`: a `YYYY-MM-DD` digit/dash
string maps to the order-preserving key `y*10000 + m*100 + d` (instants
are abstract here; only their ordering feeds the sort).  Anything else
yields `none`, leaving Go's zero time, modelled as 0.  (Go additionally
range-checks month/day; the claims never touch that difference.) -/
def parseDateKey (s : String) : Option Int :=
  match s.toList with
  | [y1, y2, y3, y4, h1, m1, m2, h2, d1, d2] =>
    if y1.isDigit && y2.isDigit && y3.isDigit && y4.isDigit
        && (h1 == '-') && (h2 == '-') && m1.isDigit && m2.isDigit
        && d1.isDigit && d2.isDigit then
      some (Int.ofNat
        (((y1.toNat - 48) * 1000 + (y2.toNat - 48) * 100
            + (y3.toNat - 48) * 10 + (y4.toNat - 48)) * 10000
          + ((m1.toNat - 48) * 10 + (m2.toNat - 48)) * 100
          + ((d1.toNat - 48) * 10 + (d2.toNat - 48))))
    else none
  | _ => none

/-- `models.go` internal `item`; timestamps are seconds
(`time.Unix(ms/1000, 0)`), `ReleasedAt` the parsed date key (0 = zero
time). -/
structure CItem where
  ID : String := ""
  Slug : String := ""
  Title : String := ""
  Status : String := ""
  Category : String := ""
  Network : String := ""
  ProjectLead : String := ""
  CreatedAt : Int := 0
  UpdatedAt : Int := 0
  ReleasedAt : Int := 0
  URL : String := ""
  ContentHTML : String := ""
  ContentText : String := ""
deriving DecidableEq, Inhabited

/-- The item built in `service.All`'s mapping loop (lines 86-116). -/
def cardToItem (c : Card) : CItem :=
  let props := renameMap c.properties
  let status := (Roadmap.alookup "status" props).getD ""
  { ID := c.id, Slug := c.id, Title := c.title,
    Status := mapStatusLabel status,
    Category := (Roadmap.alookup "category" props).getD "",
    Network := (Roadmap.alookup "network" props).getD "",
    ProjectLead := (Roadmap.alookup "projectLead" props).getD "",
    CreatedAt := c.createdAt / 1000,
    UpdatedAt := c.updatedAt / 1000,
    ReleasedAt :=
      (match Roadmap.alookup "releasedAt" props with
        | some ds => (parseDateKey ds).getD 0
        | none => 0),
    URL := c.url }

/-- The comparator `service.All` hands to `sort.SliceStable`
(lines 119-138). -/
def itemLess (sortBy : String) (a b : CItem) : Bool :=
  if sortBy = "releasedat:asc" then decide (a.ReleasedAt < b.ReleasedAt)
  else if sortBy = "releasedat:desc" then decide (b.ReleasedAt < a.ReleasedAt)
  else if sortBy = "lastupdated:asc" then decide (a.UpdatedAt < b.UpdatedAt)
  else if sortBy = "lastupdated:desc" then decide (b.UpdatedAt < a.UpdatedAt)
  else if sortBy = "createdat:asc" then decide (a.CreatedAt < b.CreatedAt)
  else if sortBy = "createdat:desc" then decide (b.CreatedAt < a.CreatedAt)
  else if sortBy = "title:desc" then
    decide (Roadmap.toLower b.Title < Roadmap.toLower a.Title)
  else decide (Roadmap.toLower a.Title < Roadmap.toLower b.Title)

/-- Stable insertion: keep earlier elements before `x` while they are
strictly `less` than it; a tie keeps the original (pre-sort) order. -/
def insertStable (less : α → α → Bool) (x : α) : List α → List α
  | [] => [x]
  | y :: ys => if less y x then y :: insertStable less x ys else x :: y :: ys

/-- Stable sort by a strict `less`, modelling Go `sort.SliceStable`
(whose output a stable sort determines uniquely). -/
def sortStable (less : α → α → Bool) : List α → List α
  | [] => []
  | x :: xs => insertStable less x (sortStable less xs)

/-- One output page of `service.All`.  (The per-item conversion to the
`hive.RoadmapItem` DTO, lines 156-175, is a length-preserving per-item
map whose string formatting no claim touches; pages here carry the
canonical items themselves.) -/
structure CubePage where
  meta : Hive.PageMeta
  items : List CItem
deriving DecidableEq, Inhabited

/-- The pagination loop of `service.All` (lines 149-185): page `p` takes
the next `limit` items; every page's meta carries
`totalPages = ceil(total/limit)` and `totalResults = total`.
(`(x :: rest).drop limit` is written `rest.drop (limit - 1)`, equal for
`limit ≥ 1`, the only way the loop is entered.) -/
def pagesLoop (limit total p : Nat) : List CItem → List CubePage
  | [] => []
  | x :: rest =>
    { meta := { page := (p : Int), limit := (limit : Int),
                totalPages := (((total + limit - 1) / limit : Nat) : Int),
                totalResults := (total : Int) },
      items := (x :: rest).take limit }
      :: pagesLoop limit total (p + 1) (rest.drop (limit - 1))
termination_by l => l.length
decreasing_by
  simp only [List.length_cons, List.length_drop]
  omega

/-- `service.All`'s limit normalization, empty-set special case and
pagination (lines 72-75, 140-186), applied to the filtered and sorted
canonical item list. -/
def paginate (limit0 : Int) (items : List CItem) : List CubePage :=
  let limit : Nat := if limit0 ≤ 0 then 10 else limit0.toNat
  if items.length = 0 then
    [{ meta := { page := 1, limit := (limit : Int), totalPages := 1,
                 totalResults := 0 },
       items := [] }]
  else
    pagesLoop limit items.length 1 items

/-- `service.All` (lines 72-187): fetch the cards, filter by the
column's mapped provider statuses (an unknown column maps to `nil`,
which matches everything), sort stably, paginate.  The change-tracker
side effect does not alter the returned pages and is modelled by the
tracker above.  The second component records that `client.Fetch` was
invoked — it happens before the column is ever inspected. -/
def AllModel (column : String) (limit0 : Int) (sortBy : String)
    (fetchRes : Except String (List Card)) :
    Except String (List CubePage) × Bool :=
  match fetchRes with
  | .error e => (.error e, true)
  | .ok cards =>
    let targetStatuses :=
      (Roadmap.alookup (Roadmap.toLower column) columnToStatus).getD []
    let items := cards.filterMap (fun c =>
      let props := renameMap c.properties
      let status := (Roadmap.alookup "status" props).getD ""
      if containsStatus targetStatuses status then some (cardToItem c) else none)
    let sorted := sortStable (itemLess (normalizeSort sortBy column)) items
    (.ok (paginate limit0 sorted), true)

/-- `service.Page` (lines 50-70) over the filtered canonical item list:
delegate to `All`; an out-of-range page yields the empty page whose meta
reports `TotalPages = len(allPages)` and `TotalResults = 0`. -/
def Page (limit0 page0 : Int) (items : List CItem) : CubePage :=
  let pages := paginate limit0 items
  let page := if page0 ≤ 0 then 1 else page0
  if (pages.length : Int) < page then
    { meta := { page := page, limit := limit0,
                totalPages := (pages.length : Int), totalResults := 0 },
      items := [] }
  else
    pages.getD (page.toNat - 1) default

/-- Concrete canonical item. -/
def exCItem : CItem := { ID := "c1", Title := "Item", Status := "Released" }

/-- Concrete raw card whose raw status matches no recognized column. -/
def exCard : Card :=
  { id := "card-1", title := "Card", properties := [("3E6J", "Mystery")] }

end Cubecraft

/-! ## Theorems -/

namespace Roadmap

theorem alookup_aset_self (k : String) (v : α) (m : List (String × α)) :
    alookup k (aset k v m) = some v := by
  induction m with
  | nil => simp [alookup, aset]
  | cons p rest ih =>
    by_cases h : p.1 = k
    · simp [alookup, aset, h]
    · simp [alookup, aset, h, ih]

theorem alookup_aset_ne (k k' : String) (v : α) (m : List (String × α))
    (h : k ≠ k') : alookup k' (aset k v m) = alookup k' m := by
  have hks : ¬(k' = k) := fun hh => h hh.symm
  induction m with
  | nil => simp [alookup, aset, h]
  | cons p rest ih =>
    by_cases hp : p.1 = k
    · simp [alookup, aset, hp, h, hks]
    · by_cases hp' : p.1 = k'
      · simp [alookup, aset, hp, hp', hks]
      · simp [alookup, aset, hp, hp', ih]

theorem alookup_aerase_self (k : String) (m : List (String × α)) :
    alookup k (aerase k m) = none := by
  induction m with
  | nil => simp [alookup, aerase]
  | cons p rest ih =>
    by_cases h : p.1 = k
    · simpa [aerase, h] using ih
    · simpa [aerase, alookup, h] using ih

end Roadmap

namespace Hive

theorem foldl_jobStep_length (fetch : Nat → Except String HiveResponse)
    (order : List Nat) :
    ∀ (l : List HiveResponse) (oe : Option String),
      ((order.foldl (jobStep fetch) (l, oe)).1).length = l.length := by
  induction order with
  | nil => intro l oe; rfl
  | cons j rest ih =>
    intro l oe
    rcases hfj : fetch j with e | hr <;> rcases oe with _ | e0 <;>
      simp [jobStep, hfj, ih, List.length_set]

theorem foldl_jobStep_snd_some (fetch : Nat → Except String HiveResponse)
    (order : List Nat) :
    ∀ (l : List HiveResponse) (e0 : String),
      (order.foldl (jobStep fetch) (l, some e0)).2 = some e0 := by
  induction order with
  | nil => intro l e0; rfl
  | cons j rest ih =>
    intro l e0
    rcases hfj : fetch j with e | hr <;> simp [jobStep, hfj, ih]

theorem foldl_jobStep_snd_none (fetch : Nat → Except String HiveResponse)
    (order : List Nat) :
    ∀ (l : List HiveResponse),
      (order.foldl (jobStep fetch) (l, none)).2 = firstJobError fetch order := by
  induction order with
  | nil => intro l; rfl
  | cons j rest ih =>
    intro l
    rcases hfj : fetch j with e | hr
    · simp [jobStep, hfj, firstJobError, foldl_jobStep_snd_some]
    · simp [jobStep, hfj, firstJobError, ih]

theorem foldl_jobStep_get_notmem (fetch : Nat → Except String HiveResponse)
    (order : List Nat) :
    ∀ (l : List HiveResponse) (oe : Option String) (i : Nat),
      (∀ j ∈ order, 1 ≤ j) → (i + 1) ∉ order →
      ((order.foldl (jobStep fetch) (l, oe)).1)[i]? = l[i]? := by
  induction order with
  | nil => intro l oe i _ _; rfl
  | cons j rest ih =>
    intro l oe i hpos hnot
    have hj : 1 ≤ j := hpos j (by simp)
    have hne : i + 1 ≠ j := fun h => hnot (h ▸ List.mem_cons_self _ _)
    have hni : j - 1 ≠ i := by omega
    have hrest : (i + 1) ∉ rest := fun h => hnot (List.mem_cons_of_mem _ h)
    have hpos' : ∀ j' ∈ rest, 1 ≤ j' := fun j' h => hpos j' (List.mem_cons_of_mem _ h)
    rcases hfj : fetch j with e | hr <;> rcases oe with _ | e0 <;>
      simp [jobStep, hfj, ih _ _ _ hpos' hrest, List.getElem?_set, hni]

theorem foldl_jobStep_get_mem (fetch : Nat → Except String HiveResponse)
    (order : List Nat) :
    ∀ (l : List HiveResponse) (oe : Option String) (i : Nat) (hr : HiveResponse),
      (∀ j ∈ order, 1 ≤ j) → (i + 1) ∈ order → fetch (i + 1) = Except.ok hr →
      i < l.length →
      ((order.foldl (jobStep fetch) (l, oe)).1)[i]? = some hr := by
  induction order with
  | nil => intro l oe i hr _ hmem; exact absurd hmem (List.not_mem_nil _)
  | cons j rest ih =>
    intro l oe i hr hpos hmem hfetch hlen
    have hpos' : ∀ j' ∈ rest, 1 ≤ j' := fun j' h => hpos j' (List.mem_cons_of_mem _ h)
    by_cases hrest : (i + 1) ∈ rest
    · have hlen' : (jobStep fetch (l, oe) j).1.length = l.length := by
        rcases hfj : fetch j with e | hr' <;> rcases oe with _ | e0 <;>
          simp [jobStep, hfj, List.length_set]
      have hih := ih (jobStep fetch (l, oe) j).1 (jobStep fetch (l, oe) j).2 i hr
        hpos' hrest hfetch (by rw [hlen']; exact hlen)
      rw [List.foldl_cons]
      simpa using hih
    · have hj : i + 1 = j := by
        rcases List.mem_cons.1 hmem with h | h
        · exact h
        · exact absurd h hrest
      subst hj
      have hidx : i + 1 - 1 = i := by omega
      rcases oe with _ | e0 <;>
        simp only [List.foldl_cons, jobStep, hfetch, hidx] <;>
        rw [foldl_jobStep_get_notmem fetch rest _ _ _ hpos' hrest] <;>
        simp [List.getElem?_set, hlen]

/-- C2: when the first page declares `P` total pages, `FetchAllPages`
issues exactly one request per page `1..P` (the issued request list is a
permutation of `[1..P]`), and, when every page request succeeds, returns
the `P` responses in page order `1..P` (`expectedPages`), for every worker
completion order; when the declared total page count is at most 1 it
returns just the single first page. -/
theorem c2_fetchAllPages_complete
    (fetch : Nat → Except String HiveResponse) (basePage : Nat)
    (order : List Nat) (first : HiveResponse)
    (hbp : basePage ≤ 1) (hfirst : fetch 1 = Except.ok first)
    (horder : order.Perm (hiveJobs first.totalPages))
    (hok : ∀ p, 1 ≤ p → p ≤ first.totalPages → ∃ hr, fetch p = Except.ok hr) :
    (1 ≤ first.totalPages →
      (fetchAllPages fetch basePage order).2.Perm
          (List.range' 1 first.totalPages)
      ∧ (fetchAllPages fetch basePage order).1
          = Except.ok (expectedPages fetch first))
    ∧ (first.totalPages ≤ 1 →
      (fetchAllPages fetch basePage order).1 = Except.ok [first]) := by
  have hep : (if basePage = 0 then 1 else basePage) = 1 := by
    rcases Nat.le_one_iff_eq_zero_or_eq_one.1 hbp with h | h <;> simp [h]
  have hpos : ∀ j ∈ order, 1 ≤ j := by
    intro j hj
    have := List.mem_range'_1.1 ((horder.mem_iff).1 hj)
    omega
  constructor
  · intro hP
    have hfe : firstJobError fetch order = none := by
      rw [firstJobError, List.findSome?_eq_none_iff]
      intro j hj
      have hmem := List.mem_range'_1.1 ((horder.mem_iff).1 hj)
      obtain ⟨hr, hhr⟩ := hok j (by omega) (by omega)
      simp [hhr]
    have hsnd : (order.foldl (jobStep fetch)
        ((List.replicate first.totalPages default).set 0 first, none)).2
          = none := by
      rw [foldl_jobStep_snd_none]; exact hfe
    have hfold1 : (order.foldl (jobStep fetch)
        ((List.replicate first.totalPages default).set 0 first, none)).1
          = expectedPages fetch first := by
      apply List.ext_getElem?
      intro i
      by_cases hiP : i < first.totalPages
      · rcases Nat.eq_zero_or_pos i with hi0 | hi1
        · subst hi0
          have h1 : (1 : Nat) ∉ order := by
            intro h
            have := List.mem_range'_1.1 ((horder.mem_iff).1 h)
            omega
          rw [foldl_jobStep_get_notmem fetch order _ _ _ hpos h1]
          have h0 : ¬ first.totalPages = 0 := by omega
          simp [List.getElem?_set, expectedPages, h0]
        · obtain ⟨i', rfl⟩ : ∃ i', i = i' + 1 := ⟨i - 1, by omega⟩
          have hjmem : (i' + 1 + 1) ∈ order :=
            (horder.mem_iff).2 (List.mem_range'_1.2 ⟨by omega, by omega⟩)
          obtain ⟨hr, hhr⟩ := hok (i' + 1 + 1) (by omega) (by omega)
          rw [foldl_jobStep_get_mem fetch order _ _ _ _ hpos hjmem hhr
            (by simpa using hiP)]
          have hlt : i' < first.totalPages - 1 := by omega
          have harith : 2 + i' = i' + 1 + 1 := by omega
          simp [expectedPages, hiveJobs, List.getElem?_map,
            List.getElem?_range' 2 1 hlt, okValue, harith, hhr]
      · have hlenf : ((order.foldl (jobStep fetch)
            ((List.replicate first.totalPages default).set 0 first, none)).1).length
              = first.totalPages := by
          rw [foldl_jobStep_length]; simp
        have hlene : (expectedPages fetch first).length = first.totalPages := by
          simp [expectedPages, hiveJobs]
          omega
        rw [List.getElem?_eq_none (by omega),
          List.getElem?_eq_none (by rw [hlene]; omega)]
    have hres : fetchAllPages fetch basePage order
        = (Except.ok (expectedPages fetch first), 1 :: order) := by
      simp only [fetchAllPages, hep, hfirst]
      rw [if_neg (by omega : ¬ first.totalPages = 0)]
      rw [hsnd, hfold1]
    rw [hres]
    refine ⟨?_, rfl⟩
    obtain ⟨m, hm⟩ : ∃ m, first.totalPages = m + 1 := ⟨first.totalPages - 1, by omega⟩
    have hrange : List.range' 1 first.totalPages = 1 :: List.range' 2 m := by
      rw [hm]; rfl
    have horder' : order.Perm (List.range' 2 m) := by
      have : hiveJobs first.totalPages = List.range' 2 m := by
        rw [hiveJobs, hm]; simp
      rwa [this] at horder
    rw [hrange]
    exact List.Perm.cons 1 horder'
  · intro hP1
    by_cases hP0 : first.totalPages = 0
    · simp only [fetchAllPages, hep, hfirst]
      rw [if_pos hP0]
    · have hP : first.totalPages = 1 := by omega
      have hnil : order = [] := by
        apply List.Perm.eq_nil
        have : hiveJobs first.totalPages = [] := by
          simp [hiveJobs, hP]
        rwa [this] at horder
      subst hnil
      simp only [fetchAllPages, hep, hfirst]
      rw [if_neg (by omega : ¬ first.totalPages = 0)]
      simp [hP, List.replicate]

/-- Witness for C2: a concrete three-page fetch with completion order
`[3, 2]` (page 3 finishing before page 2) still yields pages `1..3` in
page order, and the issued requests are exactly pages `{1, 2, 3}`. -/
theorem c2_witness :
    (fetchAllPages exFetchOK 1 [3, 2]).2.Perm (List.range' 1 3)
    ∧ (fetchAllPages exFetchOK 1 [3, 2]).1
        = Except.ok (expectedPages exFetchOK (exResp 1)) := by
  have h := c2_fetchAllPages_complete exFetchOK 1 [3, 2] (exResp 1)
    (by decide) rfl
    (by simp only [exResp]; decide)
    (by
      intro p h1 h3
      refine ⟨exResp p, ?_⟩
      have h3' : p ≤ 3 := by simpa [exResp] using h3
      simp [exFetchOK, h3'])
  exact h.1 (by decide)

/-- C3: if the first page succeeds but some later page request fails, the
whole multi-page fetch returns the first error recorded among the workers
(the error of the first failing job in completion order) and no page
payloads at all; if the first page itself fails, that error is returned
with nothing else. -/
theorem c3_fetchAllPages_error
    (fetch : Nat → Except String HiveResponse) (basePage : Nat)
    (order : List Nat) (first : HiveResponse) (e : String)
    (hbp : basePage ≤ 1) :
    (fetch 1 = Except.error e →
      (fetchAllPages fetch basePage order).1 = Except.error e)
    ∧ (fetch 1 = Except.ok first →
       order.Perm (hiveJobs first.totalPages) →
       firstJobError fetch order = some e →
      (fetchAllPages fetch basePage order).1 = Except.error e) := by
  have hep : (if basePage = 0 then 1 else basePage) = 1 := by
    rcases Nat.le_one_iff_eq_zero_or_eq_one.1 hbp with h | h <;> simp [h]
  constructor
  · intro hfail
    simp [fetchAllPages, hep, hfail]
  · intro hfirst horder hfe
    have htot : ¬ first.totalPages = 0 := by
      intro h0
      have : order = [] := by
        apply List.Perm.eq_nil
        have : hiveJobs first.totalPages = [] := by simp [hiveJobs, h0]
        rwa [this] at horder
      rw [this] at hfe
      simp [firstJobError] at hfe
    have hsnd : (order.foldl (jobStep fetch)
        ((List.replicate first.totalPages default).set 0 first, none)).2
          = some e := by
      rw [foldl_jobStep_snd_none]; exact hfe
    simp only [fetchAllPages, hep, hfirst]
    rw [if_neg htot, hsnd]

/-- Witness for C3: concretely, the upstream declares 3 pages, pages 1
and 3 succeed, page 2 fails with a network error; with completion order
`[3, 2]` the whole fetch returns that error (and no pages). -/
theorem c3_witness :
    (fetchAllPages exFetchFail 1 [3, 2]).1 = Except.error "network error" := by
  exact (c3_fetchAllPages_error exFetchFail 1 [3, 2] (exResp 1) "network error"
    (by decide)).2 rfl (by simp only [exResp]; decide) (by decide)

end Hive

namespace Hive

open Roadmap

theorem foldl_recordStep_shape (now : Int) (items : List RoadmapItem) :
    ∀ s : TrackerState,
      ∃ l, (items.foldl (recordStep now) s).updates = s.updates ++ l
        ∧ ∀ e ∈ l, e.At = now ∧ e.From ≠ e.To := by
  induction items with
  | nil => intro s; exact ⟨[], by simp, by simp⟩
  | cons it rest ih =>
    intro s
    obtain ⟨l, hl, hprop⟩ := ih (recordStep now s it)
    rcases halk : Roadmap.alookup it.id s.prevStatus with _ | prev
    · refine ⟨l, ?_, hprop⟩
      have hup : (recordStep now s it).updates = s.updates := by
        simp [recordStep, halk]
      simpa [hup] using hl
    · by_cases hne : prev = it.status
      · refine ⟨l, ?_, hprop⟩
        have hstep : recordStep now s it = s := by
          simp [recordStep, halk, hne]
        simpa [hstep] using hl
      · refine ⟨⟨now, prev, it.status, it⟩ :: l, ?_, ?_⟩
        · have hup : (recordStep now s it).updates
              = s.updates ++ [⟨now, prev, it.status, it⟩] := by
            simp [recordStep, halk, hne]
          simp only [List.foldl_cons]
          rw [hl, hup, List.append_assoc]
          rfl
        · intro e he
          rcases List.mem_cons.1 he with rfl | he'
          · exact ⟨rfl, hne⟩
          · exact hprop e he'

theorem recordChanges_updates_shape (now : Int) (items : List RoadmapItem)
    (s : TrackerState) :
    ∃ l, (recordChanges now items s).updates = pruneUpdates now s.updates ++ l
      ∧ ∀ e ∈ l, e.At = now ∧ e.From ≠ e.To := by
  obtain ⟨l, hl, hp⟩ := foldl_recordStep_shape now items
    { s with updates := pruneUpdates now s.updates }
  exact ⟨l, by simpa [recordChanges] using hl, hp⟩

theorem foldl_recordStep_lookup_of_notmem (now : Int) :
    ∀ (items : List RoadmapItem) (s : TrackerState) (k : String),
      (∀ it ∈ items, it.id ≠ k) →
      Roadmap.alookup k (items.foldl (recordStep now) s).prevStatus
        = Roadmap.alookup k s.prevStatus := by
  intro items
  induction items with
  | nil => intro s k _; rfl
  | cons it rest ih =>
    intro s k hnot
    have hitk : it.id ≠ k := hnot it (by simp)
    have hrest : ∀ it' ∈ rest, it'.id ≠ k :=
      fun it' h => hnot it' (List.mem_cons_of_mem _ h)
    rw [List.foldl_cons, ih _ _ hrest]
    rcases halk : Roadmap.alookup it.id s.prevStatus with _ | prev
    · simp [recordStep, halk, alookup_aset_ne _ _ _ _ hitk]
    · by_cases hne : prev = it.status
      · simp [recordStep, halk, hne]
      · simp [recordStep, halk, hne, alookup_aset_ne _ _ _ _ hitk]

theorem foldl_recordStep_lookup_self (now : Int) :
    ∀ (items : List RoadmapItem) (s : TrackerState),
      (items.map RoadmapItem.id).Nodup →
      ∀ it ∈ items,
        Roadmap.alookup it.id (items.foldl (recordStep now) s).prevStatus
          = some it.status := by
  intro items
  induction items with
  | nil => intro s _ it hmem; exact absurd hmem (List.not_mem_nil _)
  | cons it rest ih =>
    intro s hnodup it' hmem
    have hnodup' : (rest.map RoadmapItem.id).Nodup := (List.nodup_cons.1 hnodup).2
    rcases List.mem_cons.1 hmem with rfl | hmem'
    · have hnotin : ∀ x ∈ rest, x.id ≠ it'.id := by
        intro x hx heq
        apply (List.nodup_cons.1 hnodup).1
        rw [← heq]
        exact List.mem_map_of_mem RoadmapItem.id hx
      rw [List.foldl_cons, foldl_recordStep_lookup_of_notmem now rest _ _ hnotin]
      rcases halk : Roadmap.alookup it'.id s.prevStatus with _ | prev
      · simp [recordStep, halk, alookup_aset_self]
      · by_cases hne : prev = it'.status
        · have hstep : recordStep now s it' = s := by
            simp [recordStep, halk, hne]
          rw [hstep, halk, hne]
        · simp [recordStep, halk, hne, alookup_aset_self]
    · exact ih (recordStep now s it) hnodup' it' hmem'

theorem foldl_recordStep_noop (now : Int) :
    ∀ (items : List RoadmapItem) (s : TrackerState),
      (∀ it ∈ items, Roadmap.alookup it.id s.prevStatus = some it.status) →
      items.foldl (recordStep now) s = s := by
  intro items
  induction items with
  | nil => intro s _; rfl
  | cons it rest ih =>
    intro s hall
    have hstep : recordStep now s it = s := by
      have := hall it (by simp)
      simp [recordStep, this]
    rw [List.foldl_cons, hstep]
    exact ih s (fun it' h => hall it' (List.mem_cons_of_mem _ h))

/-- C4: per item, `record` stores an unseen identifier's status without
emitting an entry, appends exactly one `{from, to}` entry and updates the
index when a seen identifier's status differs, and leaves everything
unchanged when the status is unchanged; consequently recording the same
item set (one observation per identifier) twice in succession appends no
new entry on the second call. -/
theorem c4_record_transitions_and_idempotence :
    (∀ (now : Int) (s : TrackerState) (it : RoadmapItem),
      (Roadmap.alookup it.id s.prevStatus = none →
        recordStep now s it
          = { s with prevStatus := Roadmap.aset it.id it.status s.prevStatus })
      ∧ (∀ prev, Roadmap.alookup it.id s.prevStatus = some prev →
          prev ≠ it.status →
          recordStep now s it
            = { prevStatus := Roadmap.aset it.id it.status s.prevStatus,
                updates := s.updates ++ [⟨now, prev, it.status, it⟩] })
      ∧ (∀ prev, Roadmap.alookup it.id s.prevStatus = some prev →
          prev = it.status → recordStep now s it = s))
    ∧ (∀ (now1 now2 : Int) (items : List RoadmapItem) (s : TrackerState),
        (items.map RoadmapItem.id).Nodup →
        (recordChanges now2 items (recordChanges now1 items s)).updates
          = pruneUpdates now2 (recordChanges now1 items s).updates) := by
  constructor
  · intro now s it
    refine ⟨?_, ?_, ?_⟩
    · intro h; simp [recordStep, h]
    · intro prev h hne; simp [recordStep, h, hne]
    · intro prev h heq; simp [recordStep, h, heq]
  · intro now1 now2 items s hnodup
    have hlk : ∀ it ∈ items,
        Roadmap.alookup it.id (recordChanges now1 items s).prevStatus
          = some it.status := by
      intro it hmem
      exact foldl_recordStep_lookup_self now1 items _ hnodup it hmem
    have hnoop : items.foldl (recordStep now2)
        { recordChanges now1 items s with
          updates := pruneUpdates now2 (recordChanges now1 items s).updates }
        = { recordChanges now1 items s with
            updates := pruneUpdates now2 (recordChanges now1 items s).updates } :=
      foldl_recordStep_noop now2 items _ (fun it h => hlk it h)
    rw [recordChanges, hnoop]

/-- Witness for C4: item "X" previously indexed as "In Progress" and now
observed "Released" appends exactly the `{from: In Progress, to:
Released}` entry, and re-recording the same set right after appends
nothing. -/
theorem c4_witness :
    recordStep 200 exState1 exItemRel
      = { prevStatus := Roadmap.aset exItemRel.id exItemRel.status exState1.prevStatus,
          updates := exState1.updates ++ [⟨200, "In Progress", exItemRel.status, exItemRel⟩] }
    ∧ (recordChanges 200 [exItemRel] (recordChanges 100 [exItemRel] exState0)).updates
        = pruneUpdates 200 (recordChanges 100 [exItemRel] exState0).updates := by
  refine ⟨(c4_record_transitions_and_idempotence.1 200 exState1 exItemRel).2.1
    "In Progress" (by decide) (by decide),
    c4_record_transitions_and_idempotence.2 100 200 [exItemRel] exState0 (by decide)⟩

/-- C5: a `record` call first prunes the log to the 24-hour window and
then only appends entries timestamped `now`; every entry surviving a
`record` and every entry returned by `Updates` is strictly inside the
window; an entry one unit inside the boundary is retained, one unit
beyond it is neither kept by `record` nor returned by `Updates`; hence a
reader never observes an entry detected 24 hours or more ago. -/
theorem c5_retention_window (now : Int) (items : List RoadmapItem)
    (s : TrackerState) :
    (∃ l, (recordChanges now items s).updates
        = pruneUpdates now s.updates ++ l ∧ ∀ e ∈ l, e.At = now)
    ∧ (∀ e ∈ (recordChanges now items s).updates,
        now - retentionWindow < e.At)
    ∧ (∀ e, e ∈ Updates now s ↔ e ∈ s.updates ∧ now - retentionWindow < e.At)
    ∧ (∀ e ∈ s.updates, e.At = now - retentionWindow + 1 →
        e ∈ (recordChanges now items s).updates ∧ e ∈ Updates now s)
    ∧ (∀ e, e.At = now - retentionWindow - 1 →
        e ∉ (recordChanges now items s).updates ∧ e ∉ Updates now s)
    ∧ (∀ e ∈ Updates now s, now - e.At < retentionWindow) := by
  obtain ⟨l, hl, hprop⟩ := recordChanges_updates_shape now items s
  have hW : (0 : Int) < retentionWindow := by norm_num [retentionWindow]
  have hmemrec : ∀ e, e ∈ (recordChanges now items s).updates ↔
      ((e ∈ s.updates ∧ now - retentionWindow < e.At) ∨ e ∈ l) := by
    intro e
    rw [hl, List.mem_append]
    constructor
    · rintro (h | h)
      · have := List.mem_filter.1 h
        exact Or.inl ⟨this.1, by simpa using this.2⟩
      · exact Or.inr h
    · rintro (⟨h1, h2⟩ | h)
      · exact Or.inl (List.mem_filter.2 ⟨h1, by simpa using h2⟩)
      · exact Or.inr h
  have hmemupd : ∀ e, e ∈ Updates now s ↔
      e ∈ s.updates ∧ now - retentionWindow < e.At := by
    intro e
    rw [Updates, pruneUpdates, List.mem_filter]
    constructor
    · exact fun h => ⟨h.1, by simpa using h.2⟩
    · exact fun h => ⟨h.1, by simpa using h.2⟩
  refine ⟨⟨l, hl, fun e he => (hprop e he).1⟩, ?_, hmemupd, ?_, ?_, ?_⟩
  · intro e he
    rcases (hmemrec e).1 he with ⟨_, h⟩ | h
    · exact h
    · rw [(hprop e h).1]; omega
  · intro e he hAt
    refine ⟨(hmemrec e).2 (Or.inl ⟨he, by omega⟩), (hmemupd e).2 ⟨he, by omega⟩⟩
  · intro e hAt
    constructor
    · intro hmem
      rcases (hmemrec e).1 hmem with ⟨_, h⟩ | h
      · omega
      · have := (hprop e h).1
        omega
    · intro hmem
      have := ((hmemupd e).1 hmem).2
      omega
  · intro e he
    have := ((hmemupd e).1 he).2
    omega

/-- Witness for C5: with `now = 2·W`, the entry detected at `W + 1`
(one unit inside the boundary) survives both `record` and `Updates`,
while the entry detected at `W - 1` (one unit beyond) is gone from both. -/
theorem c5_witness :
    (exEntryKept ∈ (recordChanges (2 * retentionWindow) [] exTrackerState).updates
      ∧ exEntryKept ∈ Updates (2 * retentionWindow) exTrackerState)
    ∧ (exEntryOld ∉ (recordChanges (2 * retentionWindow) [] exTrackerState).updates
      ∧ exEntryOld ∉ Updates (2 * retentionWindow) exTrackerState) := by
  refine ⟨(c5_retention_window (2 * retentionWindow) [] exTrackerState).2.2.2.1
      exEntryKept (by decide) (by decide),
    (c5_retention_window (2 * retentionWindow) [] exTrackerState).2.2.2.2.1
      exEntryOld (by decide)⟩

theorem pairwise_at_of_const {now : Int} :
    ∀ {l : List ChangeEntry}, (∀ e ∈ l, e.At = now) →
      List.Pairwise (fun a b : ChangeEntry => a.At ≤ b.At) l := by
  intro l
  induction l with
  | nil => intro _; exact List.Pairwise.nil
  | cons a rest ih =>
    intro h
    refine List.Pairwise.cons ?_ (ih (fun e he => h e (List.mem_cons_of_mem _ he)))
    intro b hb
    rw [h a (by simp), h b (List.mem_cons_of_mem _ hb)]

/-- C10: every tracker state reachable from the empty state by `record`
calls (with time flowing forward) has a change log in which every entry
satisfies `From ≠ To` and detection timestamps are non-decreasing, and
`Updates` returns a list with the same invariant. -/
theorem c10_change_log_invariant :
    ∀ s : TrackerState, Reachable s →
      (List.Pairwise (fun a b : ChangeEntry => a.At ≤ b.At) s.updates
        ∧ ∀ e ∈ s.updates, e.From ≠ e.To)
      ∧ ∀ now : Int,
          List.Pairwise (fun a b : ChangeEntry => a.At ≤ b.At) (Updates now s)
          ∧ ∀ e ∈ Updates now s, e.From ≠ e.To := by
  have hread : ∀ (s : TrackerState),
      (List.Pairwise (fun a b : ChangeEntry => a.At ≤ b.At) s.updates
        ∧ ∀ e ∈ s.updates, e.From ≠ e.To) →
      ∀ now : Int,
        List.Pairwise (fun a b : ChangeEntry => a.At ≤ b.At) (Updates now s)
        ∧ ∀ e ∈ Updates now s, e.From ≠ e.To := by
    intro s hlog now
    exact ⟨hlog.1.filter _, fun e he => hlog.2 e (List.mem_of_mem_filter he)⟩
  intro s hreach
  induction hreach with
  | init =>
    refine ⟨⟨List.Pairwise.nil, by simp⟩, ?_⟩
    intro now
    exact ⟨List.Pairwise.nil, by simp [Updates, pruneUpdates]⟩
  | record s now items hr htime ih =>
    obtain ⟨l, hl, hprop⟩ := recordChanges_updates_shape now items s
    have hlog : List.Pairwise (fun a b : ChangeEntry => a.At ≤ b.At)
        (recordChanges now items s).updates
        ∧ ∀ e ∈ (recordChanges now items s).updates, e.From ≠ e.To := by
      constructor
      · rw [hl]
        refine List.pairwise_append.2 ⟨ih.1.1.filter _, ?_, ?_⟩
        · exact pairwise_at_of_const (fun e he => (hprop e he).1)
        · intro a ha b hb
          have haup : a ∈ s.updates := List.mem_of_mem_filter ha
          rw [(hprop b hb).1]
          exact htime a haup
      · intro e he
        rw [hl] at he
        rcases List.mem_append.1 he with h | h
        · exact ih.1.2 e (List.mem_of_mem_filter h)
        · exact (hprop e h).2
    exact ⟨hlog, hread _ hlog⟩

/-- Witness for C10: the concretely reachable state that observed "X" as
In Progress at time 100 and Released at time 200 satisfies the invariant;
in particular, its single entry's transition is "In Progress" ≠
"Released". -/
theorem c10_witness :
    List.Pairwise (fun a b : ChangeEntry => a.At ≤ b.At) exState2.updates
    ∧ ("In Progress" : String) ≠ "Released" := by
  have h := c10_change_log_invariant exState2
    (Reachable.record exState1 200 [exItemRel]
      (Reachable.record exState0 100 [exItemIP] Reachable.init (by decide))
      (by decide))
  refine ⟨h.1.1, h.1.2 ⟨200, "In Progress", "Released", exItemRel⟩ (by decide)⟩

theorem getNetwork_usedNetwork (cacheTTL now : Int)
    (cache : List (String × CacheEntry)) (fullURL : String) (bypass : Bool)
    (network : Except String String) :
    (getNetwork cacheTTL now cache fullURL bypass network).2.2 = true := by
  rcases network with e | b
  · rfl
  · by_cases h : 0 < cacheTTL ∧ bypass = false <;> simp [getNetwork, h]


theorem getNetwork_cache_of_nonpos (cacheTTL now : Int)
    (cache : List (String × CacheEntry)) (fullURL : String) (bypass : Bool)
    (network : Except String String) (h : cacheTTL ≤ 0) :
    (getNetwork cacheTTL now cache fullURL bypass network).2.1 = cache := by
  have hnc : ¬ (0 < cacheTTL ∧ bypass = false) := by rintro ⟨h1, _⟩; omega
  rcases network with e | b
  · rfl
  · simp [getNetwork, hnc]

theorem clientGet_miss_iff (cacheTTL now : Int)
    (cache : List (String × CacheEntry)) (fullURL : String) (bypass : Bool)
    (network : Except String String) :
    (clientGet cacheTTL now cache fullURL bypass network).2.2 = false ↔
      bypass = false ∧ 0 < cacheTTL
        ∧ ∃ e, Roadmap.alookup fullURL cache = some e ∧ now < e.expiresAt := by
  by_cases hcond : bypass = false ∧ 0 < cacheTTL
  · obtain ⟨hb, ht⟩ := hcond
    subst hb
    rcases halk : Roadmap.alookup fullURL cache with _ | e
    · simp [clientGet, ht, halk, getNetwork_usedNetwork]
    · by_cases hexp : now < e.expiresAt
      · simp [clientGet, ht, halk, hexp]
      · simp [clientGet, ht, halk, hexp, getNetwork_usedNetwork]
  · have h2 : (clientGet cacheTTL now cache fullURL bypass network).2.2 = true := by
      rw [clientGet, if_neg hcond]
      exact getNetwork_usedNetwork _ _ _ _ _ _
    rw [h2]
    constructor
    · intro hx; exact absurd hx (by simp)
    · rintro ⟨hb, ht, _⟩; exact absurd ⟨hb, ht⟩ hcond

/-- C7: a (non-bypassed) `get` is served from the cache iff the TTL is
strictly positive, the key is stored and `now` is strictly before the
stored expiry, in which case the stored body is returned and the cache is
untouched; with TTL ≤ 0 nothing is ever stored and the network is always
used; a hit is only ever possible on an unexpired entry; and after a
`get` that found an expired entry, whatever the key now maps to is
unexpired (the entry was evicted or overwritten).  The cubecraft client's
single-slot cache satisfies the same hit/disable laws. -/
theorem c7_cache_hit_iff_fresh (cacheTTL now : Int)
    (cache : List (String × CacheEntry)) (fullURL : String)
    (network : Except String String) :
    ((clientGet cacheTTL now cache fullURL false network).2.2 = false ↔
      0 < cacheTTL ∧ ∃ e, Roadmap.alookup fullURL cache = some e
        ∧ now < e.expiresAt)
    ∧ (∀ e, Roadmap.alookup fullURL cache = some e → 0 < cacheTTL →
        now < e.expiresAt →
        clientGet cacheTTL now cache fullURL false network
          = (Except.ok e.body, cache, false))
    ∧ (∀ bypass, cacheTTL ≤ 0 →
        (clientGet cacheTTL now cache fullURL bypass network).2.1 = cache
        ∧ (clientGet cacheTTL now cache fullURL bypass network).2.2 = true)
    ∧ (∀ bypass,
        (clientGet cacheTTL now cache fullURL bypass network).2.2 = false →
        ∃ e, Roadmap.alookup fullURL cache = some e ∧ now < e.expiresAt)
    ∧ (0 < cacheTTL → ∀ e, Roadmap.alookup fullURL cache = some e →
        e.expiresAt ≤ now →
        ∀ e', Roadmap.alookup fullURL
            (clientGet cacheTTL now cache fullURL false network).2.1 = some e' →
          now < e'.expiresAt)
    ∧ (∀ (ccCache : Option Cubecraft.CacheEntry)
         (ccNet : Except String (List Cubecraft.Card)),
        ((Cubecraft.Fetch cacheTTL now ccCache ccNet).2.2 = false ↔
          0 < cacheTTL ∧ ∃ e, ccCache = some e ∧ now < e.expiresAt)
        ∧ (cacheTTL ≤ 0 →
            (Cubecraft.Fetch cacheTTL now ccCache ccNet).2.1 = ccCache
            ∧ (Cubecraft.Fetch cacheTTL now ccCache ccNet).2.2 = true)) := by
  refine ⟨?_, ?_, ?_, ?_, ?_, ?_⟩
  · rw [clientGet_miss_iff]
    simp
  · intro e halk h hexp
    simp [clientGet, h, halk, hexp]
  · intro bypass h
    have hcond : ¬ (bypass = false ∧ 0 < cacheTTL) := by
      rintro ⟨_, h'⟩; omega
    rw [clientGet, if_neg hcond]
    exact ⟨getNetwork_cache_of_nonpos _ _ _ _ _ _ h,
      getNetwork_usedNetwork _ _ _ _ _ _⟩
  · intro bypass hmiss
    obtain ⟨_, _, e, halk, hexp⟩ := (clientGet_miss_iff _ _ _ _ _ _).1 hmiss
    exact ⟨e, halk, hexp⟩
  · intro h e halk hexp e' halk'
    have hnl : ¬ now < e.expiresAt := by omega
    have hred : clientGet cacheTTL now cache fullURL false network
        = getNetwork cacheTTL now (Roadmap.aerase fullURL cache) fullURL
            false network := by
      simp [clientGet, h, halk, hnl]
    rw [hred] at halk'
    rcases network with er | b
    · simp [getNetwork, Roadmap.alookup_aerase_self] at halk'
    · simp [getNetwork, h, Roadmap.alookup_aset_self] at halk'
      subst halk'
      simp
      omega
  · intro ccCache ccNet
    have hmiss_iff : (Cubecraft.Fetch cacheTTL now ccCache ccNet).2.2 = false ↔
        0 < cacheTTL ∧ ∃ e, ccCache = some e ∧ now < e.expiresAt := by
      by_cases h : 0 < cacheTTL
      · rcases ccCache with _ | e
        · rw [Cubecraft.Fetch.eq_def, if_pos h]
          rcases ccNet with er | cards <;> simp [Cubecraft.fetchNetwork, h]
        · by_cases hexp : now < e.expiresAt
          · simp [Cubecraft.Fetch, h, hexp]
          · rw [Cubecraft.Fetch.eq_def, if_pos h]
            simp only [if_neg hexp]
            rcases ccNet with er | cards <;>
              simp [Cubecraft.fetchNetwork, h, hexp]
      · rw [Cubecraft.Fetch.eq_def, if_neg h]
        rcases ccNet with er | cards <;> simp [Cubecraft.fetchNetwork, h]
    refine ⟨hmiss_iff, ?_⟩
    intro h
    have hn : ¬ (0 : Int) < cacheTTL := by omega
    rw [Cubecraft.Fetch.eq_def, if_neg hn]
    rcases ccNet with er | cards <;> simp [Cubecraft.fetchNetwork, hn]

/-- Witness for C7: with TTL 5 and an entry expiring at 1000, a get at
time 999 is a hit returning the stored body and leaving the cache alone;
with TTL 0 the same get uses the network and stores nothing. -/
theorem c7_witness :
    clientGet 5 999 exCache "u" false (Except.ok "net-body")
      = (Except.ok exCacheEntry.body, exCache, false)
    ∧ (clientGet 0 999 exCache "u" false (Except.ok "net-body")).2.1 = exCache
    ∧ (clientGet 0 999 exCache "u" false (Except.ok "net-body")).2.2 = true := by
  refine ⟨(c7_cache_hit_iff_fresh 5 999 exCache "u" (Except.ok "net-body")).2.1
      exCacheEntry (by decide) (by decide) (by decide), ?_, ?_⟩
  · exact ((c7_cache_hit_iff_fresh 0 999 exCache "u" (Except.ok "net-body")).2.2.1
      false (by decide)).1
  · exact ((c7_cache_hit_iff_fresh 0 999 exCache "u" (Except.ok "net-body")).2.2.1
      false (by decide)).2

end Hive

namespace Cubecraft

theorem pagesLoop_length_aux (limit total : Nat) (hL : 1 ≤ limit) :
    ∀ (n : Nat) (rest : List CItem) (p : Nat), rest.length ≤ n → rest ≠ [] →
      (pagesLoop limit total p rest).length = (rest.length + limit - 1) / limit := by
  intro n
  induction n with
  | zero =>
    intro rest p hlen hne
    cases rest with
    | nil => exact absurd rfl hne
    | cons x r => simp at hlen
  | succ n ih =>
    intro rest p hlen hne
    cases rest with
    | nil => exact absurd rfl hne
    | cons x rest' =>
      simp only [pagesLoop]
      by_cases hsmall : rest'.length ≤ limit - 1
      · have hdrop : rest'.drop (limit - 1) = [] :=
          List.drop_eq_nil_of_le hsmall
        rw [hdrop]
        simp only [pagesLoop, List.length_cons, List.length_nil]
        symm
        apply Nat.div_eq_of_lt_le (by omega) (by omega)
      · have hlist := List.length_drop (limit - 1) rest'
        have hne' : rest'.drop (limit - 1) ≠ [] := by
          intro h
          rw [h] at hlist
          simp at hlist
          omega
        have hlen' : (rest'.drop (limit - 1)).length ≤ n := by
          rw [hlist]
          simp at hlen
          omega
        rw [List.length_cons, ih _ (p + 1) hlen' hne', hlist]
        have hd : rest'.length - (limit - 1) + limit - 1 = rest'.length := by omega
        have hr : rest'.length + 1 + limit - 1 = rest'.length + limit := by omega
        rw [hd]
        simp only [List.length_cons]
        rw [hr, Nat.add_div_right _ (by omega : 0 < limit)]

theorem pagesLoop_meta_aux (limit total : Nat) :
    ∀ (n : Nat) (rest : List CItem) (p : Nat), rest.length ≤ n →
      ∀ pg ∈ pagesLoop limit total p rest,
        pg.meta.totalPages = (((total + limit - 1) / limit : Nat) : Int)
        ∧ pg.meta.totalResults = (total : Int)
        ∧ pg.meta.limit = (limit : Int) := by
  intro n
  induction n with
  | zero =>
    intro rest p hlen pg hpg
    cases rest with
    | nil => simp [pagesLoop] at hpg
    | cons x r => simp at hlen
  | succ n ih =>
    intro rest p hlen pg hpg
    cases rest with
    | nil => simp [pagesLoop] at hpg
    | cons x rest' =>
      simp only [pagesLoop] at hpg
      rcases List.mem_cons.1 hpg with rfl | hpg'
      · exact ⟨rfl, rfl, rfl⟩
      · have hlen' : (rest'.drop (limit - 1)).length ≤ n := by
          rw [List.length_drop]
          simp at hlen
          omega
        exact ih _ (p + 1) hlen' pg hpg'

theorem paginate_length_max (L : Nat) (items : List CItem) (hL : 1 ≤ L) :
    (paginate (L : Int) items).length = max 1 ((items.length + L - 1) / L) := by
  have hc : ¬ ((L : Int) ≤ 0) := by
    have : (0 : Int) < L := by exact_mod_cast hL
    omega
  by_cases hN : items.length = 0
  · have hnil : items = [] := List.length_eq_zero.1 hN
    subst hnil
    have h0 : (L - 1) / L = 0 := Nat.div_eq_of_lt (by omega)
    simp [paginate, h0]
  · simp only [paginate, if_neg hc, if_neg hN]
    rw [pagesLoop_length_aux (L : Int).toNat items.length
      (by simpa using hL) items.length items 1 le_rfl
      (fun h => hN (by simp [h]))]
    have h1 : 1 ≤ (items.length + (L : Int).toNat - 1) / (L : Int).toNat := by
      rw [Nat.one_le_div_iff (by simpa using hL)]
      have : (L : Int).toNat = L := by simp
      omega
    simp only [Int.toNat_natCast] at h1 ⊢
    omega

/-- C6: for every page size `L ≥ 1` and filtered item count `N`, the
paginator produces `max(1, ceil(N/L))` pages and stamps each page's meta
with that total page count and with `TotalResults = N`; an empty result
set yields exactly one page — page 1, zero items, `TotalResults = 0`,
`TotalPages = 1` — never zero pages. -/
theorem c6_total_pages_max_ceil (L : Nat) (items : List CItem) (hL : 1 ≤ L) :
    (paginate (L : Int) items).length = max 1 ((items.length + L - 1) / L)
    ∧ (∀ pg ∈ paginate (L : Int) items,
        pg.meta.totalPages = ((max 1 ((items.length + L - 1) / L) : Nat) : Int)
        ∧ pg.meta.totalResults = (items.length : Int))
    ∧ (items = [] →
        paginate (L : Int) items
          = [{ meta := { page := 1, limit := (L : Int), totalPages := 1,
                         totalResults := 0 }, items := [] }]) := by
  have hc : ¬ ((L : Int) ≤ 0) := by
    have : (0 : Int) < L := by exact_mod_cast hL
    omega
  refine ⟨paginate_length_max L items hL, ?_, ?_⟩
  · intro pg hpg
    by_cases hN : items.length = 0
    · have hnil : items = [] := List.length_eq_zero.1 hN
      subst hnil
      simp [paginate, hc] at hpg
      subst hpg
      have h0 : (L - 1) / L = 0 := Nat.div_eq_of_lt (by omega)
      simp [h0]
    · simp only [paginate, if_neg hc, if_neg hN] at hpg
      obtain ⟨h1, h2, _⟩ := pagesLoop_meta_aux (L : Int).toNat items.length
        items.length items 1 le_rfl pg hpg
      have hmax : max 1 ((items.length + L - 1) / L)
          = (items.length + L - 1) / L := by
        have : 1 ≤ (items.length + L - 1) / L := by
          rw [Nat.one_le_div_iff (by omega)]
          omega
        omega
      rw [hmax]
      rw [h1, h2]
      simp
  · intro hnil
    subst hnil
    have hL0 : L ≠ 0 := by omega
    simp [paginate, hc, hL0]

/-- Counterexample for C1 as stated: one item, page size 1, requested
page 2 (beyond the single page): the returned metadata reports
`TotalResults = 0`, not the true total result count 1 of the full item
set. -/
theorem c1_counterexample :
    (Page (1 : Int) 2 [exCItem]).meta.totalResults
      ≠ (([exCItem].length : Nat) : Int) := by
  norm_num [Page, paginate, pagesLoop]

/-- C1 (amended): requesting a page strictly beyond the total page count
from `Service.Page` returns a non-error, well-formed empty page whose
metadata reports the true total page count (`max(1, ceil(N/L))`) but
`TotalResults = 0` — not the true total result count. -/
theorem c1_page_overflow (L : Nat) (page0 : Int) (items : List CItem)
    (hL : 1 ≤ L) (_hN : items ≠ [])
    (hover : ((paginate (L : Int) items).length : Int) < page0) :
    Page (L : Int) page0 items
      = { meta := { page := page0, limit := (L : Int),
                    totalPages := ((paginate (L : Int) items).length : Int),
                    totalResults := 0 },
          items := [] }
    ∧ (paginate (L : Int) items).length
        = max 1 ((items.length + L - 1) / L) := by
  have hpos : ¬ (page0 ≤ 0) := by
    have h0 : (0 : Int) ≤ ((paginate (L : Int) items).length : Int) := by
      positivity
    omega
  constructor
  · simp only [Page, if_neg hpos, if_pos hover]
  · exact paginate_length_max L items hL

/-- Witness for C1 (amended): one item, page size 1, requested page 2
yields the empty page with `TotalPages = 1` and `TotalResults = 0`. -/
theorem c1_witness :
    Page ((1 : Nat) : Int) 2 [exCItem]
      = { meta := { page := 2, limit := ((1 : Nat) : Int), totalPages := 1,
                    totalResults := 0 },
          items := [] } := by
  have h := c1_page_overflow 1 2 [exCItem] (by decide) (by simp)
    (by norm_num [paginate, pagesLoop])
  rw [h.1]
  norm_num [paginate, pagesLoop]

/-- Witness for C6: 3 items at page size 2 give `max 1 ⌈3/2⌉ = 2` pages. -/
theorem c6_witness :
    (paginate (2 : Int) [exCItem, exCItem, exCItem]).length
      = max 1 ((3 + 2 - 1) / 2) := by
  have h := c6_total_pages_max_ceil 2 [exCItem, exCItem, exCItem] (by decide)
  simpa using h.1

end Cubecraft

theorem filterMap_allPass (cards : List Cubecraft.Card) :
    cards.filterMap (fun c =>
      if Cubecraft.containsStatus []
          ((Roadmap.alookup "status" (Cubecraft.renameMap c.properties)).getD "")
        then some (Cubecraft.cardToItem c) else none)
      = cards.map Cubecraft.cardToItem := by
  have hfun : (fun c : Cubecraft.Card =>
      if Cubecraft.containsStatus []
          ((Roadmap.alookup "status" (Cubecraft.renameMap c.properties)).getD "")
        then some (Cubecraft.cardToItem c) else none)
      = (some ∘ Cubecraft.cardToItem) := by
    funext c
    simp [Cubecraft.containsStatus]
  rw [hfun, List.filterMap_eq_map]

/-- Counterexample for C8 as stated: cubecraft `All` called with the
unrecognized logical column "bogus" does not return an invalid-column
error — it returns a normal success — and the upstream fetch is invoked
anyway. -/
theorem c8_counterexample :
    Roadmap.alookup (Roadmap.toLower "bogus") Cubecraft.columnToStatus = none
    ∧ (Cubecraft.AllModel "bogus" 10 ""
        (Except.ok [Cubecraft.exCard])).1.isOk = true
    ∧ (Cubecraft.AllModel "bogus" 10 "" (Except.ok [Cubecraft.exCard])).2
        = true := by
  refine ⟨by decide, ?_, ?_⟩ <;>
    simp [Cubecraft.AllModel, Except.isOk, Except.toBool]

/-- C8 (amended): the hive client rejects an unknown logical column
before any upstream request (`FetchPage` — and hence `GetPage`/`GetAll`,
whose first step it is — returns the invalid-column error with an empty
request list), while cubecraft `All`/`Page` do not reject it: the
upstream fetch is invoked regardless, the unknown column maps to the
empty status set, which matches every item, and a normal non-error
result over all items is returned. -/
theorem c8_reject_vs_nofilter (q : Hive.Query)
    (net : Hive.URLParts → Except String Hive.HiveResponse)
    (col : String) (limit0 : Int) (sortBy : String)
    (cards : List Cubecraft.Card) :
    (Roadmap.alookup (Roadmap.toLower q.column) Hive.columnToStatusID = none →
      Hive.fetchPage net q
        = (Except.error ("unknown column: " ++ q.column), []))
    ∧ (Roadmap.alookup (Roadmap.toLower col) Cubecraft.columnToStatus = none →
        (Cubecraft.AllModel col limit0 sortBy (Except.ok cards)).2 = true
        ∧ (Cubecraft.AllModel col limit0 sortBy (Except.ok cards)).1
            = Except.ok (Cubecraft.paginate limit0
                (Cubecraft.sortStable
                  (Cubecraft.itemLess (Cubecraft.normalizeSort sortBy col))
                  (cards.map Cubecraft.cardToItem)))) := by
  constructor
  · intro h
    simp [Hive.fetchPage, Hive.buildURL, Hive.statusID, h]
  · intro h
    refine ⟨by simp [Cubecraft.AllModel], ?_⟩
    simp only [Cubecraft.AllModel, h, Option.getD_none]
    rw [filterMap_allPass]

/-- Witness for C8 (amended): the hive side rejects the column "bogus"
with no request issued; the cubecraft side still invokes its fetch. -/
theorem c8_witness :
    Hive.fetchPage (fun _ => Except.ok {}) { column := "bogus" }
      = (Except.error ("unknown column: " ++ "bogus"), [])
    ∧ (Cubecraft.AllModel "bogus" 10 "" (Except.ok [])).2 = true := by
  have h := c8_reject_vs_nofilter { column := "bogus" } (fun _ => Except.ok {})
    "bogus" 10 "" []
  exact ⟨h.1 (by decide), (h.2 (by decide)).1⟩

namespace Hive

theorem removeTagsAux_append :
    ∀ (xs ys : List Char) (b : Bool),
      removeTagsAux b (xs ++ ys)
        = removeTagsAux b xs ++ removeTagsAux (tagState b xs) ys := by
  intro xs
  induction xs with
  | nil => intro ys b; simp [removeTagsAux, tagState]
  | cons c rest ih =>
    intro ys b
    by_cases h1 : c = '<'
    · simp [removeTagsAux, tagState, h1, ih]
    · by_cases h2 : c = '>'
      · simp [removeTagsAux, tagState, h1, h2, ih]
      · cases b <;> simp [removeTagsAux, tagState, h1, h2, ih]

theorem removeTagsAux_clean_tag :
    ∀ (tag : List Char), (∀ c ∈ tag, c ≠ '<' ∧ c ≠ '>') →
      removeTagsAux true tag = [] ∧ tagState true tag = true := by
  intro tag
  induction tag with
  | nil => intro _; exact ⟨rfl, rfl⟩
  | cons c rest ih =>
    intro h
    obtain ⟨h1, h2⟩ := h c (by simp)
    have hr := ih (fun c' hc' => h c' (List.mem_cons_of_mem _ hc'))
    simp [removeTagsAux, tagState, h1, h2, hr]

/-- C9: `stripHTML` is the composition of tag removal, single-pass
decoding of exactly the six named entities, and whitespace trimming; tag
removal deletes every bracketed `<tag>` region wholesale; each of the six
entities decodes to its character at the head of the stream; and a
position at which no listed entity matches passes through unchanged, so
any other entity sequence stays unresolved. -/
theorem c9_stripHTML_tags_entities :
    (∀ l, stripHTML l = Roadmap.trimChars (decodeEntities (removeTags l)))
    ∧ (∀ pre tag post, (∀ c ∈ tag, c ≠ '<' ∧ c ≠ '>') →
        removeTags (pre ++ '<' :: (tag ++ '>' :: post))
          = removeTags pre ++ removeTags post)
    ∧ (∀ rest, decodeEntities (['&', 'n', 'b', 's', 'p', ';'] ++ rest)
        = ' ' :: decodeEntities rest)
    ∧ (∀ rest, decodeEntities (['&', 'a', 'm', 'p', ';'] ++ rest)
        = '&' :: decodeEntities rest)
    ∧ (∀ rest, decodeEntities (['&', 'l', 't', ';'] ++ rest)
        = '<' :: decodeEntities rest)
    ∧ (∀ rest, decodeEntities (['&', 'g', 't', ';'] ++ rest)
        = '>' :: decodeEntities rest)
    ∧ (∀ rest, decodeEntities (['&', '#', '3', '9', ';'] ++ rest)
        = Char.ofNat 39 :: decodeEntities rest)
    ∧ (∀ rest, decodeEntities (['&', 'q', 'u', 'o', 't', ';'] ++ rest)
        = '"' :: decodeEntities rest)
    ∧ (∀ c rest, (∀ p ∈ entityList, ¬ p.1.isPrefixOf (c :: rest)) →
        decodeEntities (c :: rest) = c :: decodeEntities rest) := by
  refine ⟨fun l => rfl, ?_, ?_, ?_, ?_, ?_, ?_, ?_, ?_⟩
  · intro pre tag post hclean
    rw [removeTags, removeTagsAux_append]
    obtain ⟨hdrop, hstate⟩ := removeTagsAux_clean_tag tag hclean
    have hmid : removeTagsAux (tagState false pre) ('<' :: (tag ++ '>' :: post))
        = removeTagsAux false post := by
      rw [show removeTagsAux (tagState false pre) ('<' :: (tag ++ '>' :: post))
          = removeTagsAux true (tag ++ '>' :: post) from by simp [removeTagsAux]]
      rw [removeTagsAux_append, hdrop, hstate]
      simp [removeTagsAux]
    rw [hmid]
    rfl
  · intro rest; simp [decodeEntities, entityList, List.isPrefixOf]
  · intro rest; simp [decodeEntities, entityList, List.isPrefixOf]
  · intro rest; simp [decodeEntities, entityList, List.isPrefixOf]
  · intro rest; simp [decodeEntities, entityList, List.isPrefixOf]
  · intro rest; simp [decodeEntities, entityList, List.isPrefixOf]
  · intro rest; simp [decodeEntities, entityList, List.isPrefixOf]
  · intro c rest hno
    have hfs : entityList.findSome?
        (fun p => if p.1.isPrefixOf (c :: rest) then some p else none)
          = none := by
      rw [List.findSome?_eq_none_iff]
      intro p hp
      simp [hno p hp]
    simp only [decodeEntities, hfs]

/-- Witness for C9: the tag `<b>` between "a" and "c" is wholly removed,
and the unknown entity `&copy;` passes through undecoded. -/
theorem c9_witness :
    removeTags (['a'] ++ '<' :: (['b'] ++ '>' :: ['c']))
      = removeTags ['a'] ++ removeTags ['c']
    ∧ decodeEntities ('&' :: ['c', 'o', 'p', 'y', ';'])
        = '&' :: decodeEntities ['c', 'o', 'p', 'y', ';'] := by
  refine ⟨c9_stripHTML_tags_entities.2.1 ['a'] ['b'] ['c'] (by decide),
    c9_stripHTML_tags_entities.2.2.2.2.2.2.2.2 '&' ['c', 'o', 'p', 'y', ';']
      (by decide)⟩

end Hive
